import Mathlib

/-!
Verification of the photo-squaring utility `convert_photo.py`.

The program is embedded shallowly:

* Strings manipulated by the program (file names, hex color strings,
  exclusion lists) are modeled as `List Char`; Python `str.lower`,
  `str.lstrip`, `str.strip` and substring tests are defined below on lists.
* `pathlib` name arithmetic (`Path.suffix`, `Path.stem`, `Path.with_suffix`)
  is modeled after CPython's implementation: the suffix starts at the last
  dot of the name provided that dot is neither the first nor the last
  character.
* Machine integers are `ℤ`/`ℕ`.  The two floating-point computations of the
  source are embedded exactly:
  - `quality_maps`: on the clamped domain `q10 ∈ [1,10]` the IEEE-double
    evaluation of `int(30 + (q10-1)*(65/9))` coincides with the floor of the
    exact rational `30 + (q10-1)*65/9` (checked at each of the ten inputs),
    and `9/9` is exactly `1.0`, so both branches are embedded as exact
    integer arithmetic (`Int.fdiv` is floor division; the truncating `int()`
    agrees with floor on these non-negative values).
  - `pad_to_square`: `round(w * (target / float(max(w, h))))` is embedded as
    round-half-to-even (Python's `round`) of the exact rational
    `w * target / max w h`, represented by its numerator and denominator.
* A PIL image is modeled by its width, height and color mode; `Image.new`
  yields an image of the requested size and mode, `resize` yields an image of
  the requested size preserving the mode, and `paste` mutates only pixels of
  the receiver, so it changes neither size nor mode.
* `PIL.ImageColor.getrgb` (an external library call) is embedded for the
  only argument shape the program can produce, `"#" + digits`: per Pillow,
  the string is lowercased and must match `#rgb`, `#rgba`, `#rrggbb` or
  `#rrggbbaa` with lowercase hex digits; anything else raises `ValueError`,
  modeled as `none`.
* Per-file exceptions caught by `convert_photo` (`Image.open`, `save`) are
  modeled by the Booleans `opens` / `saves` of a `FileEntry`; `main`'s
  traversal is a fold over the list of directory entries, and its exit
  behavior is an `Except ℕ (ℕ × ℕ)`: `error 1` for `sys.exit(1)`, `ok`
  carrying the final `(succeeded, attempted)` summary for a zero exit.
-/

namespace ConvertPhoto

/-- Python `str.lower()` restricted to the character-by-character (ASCII)
case mapping, applied to a name modeled as a character list. -/
def lowerStr (l : List Char) : List Char := l.map Char.toLower

/-- Python `str.lstrip(chars)`: drop leading characters belonging to `cs`. -/
def lstripChars (cs : List Char) (l : List Char) : List Char :=
  l.dropWhile (fun c => cs.contains c)

/-- Python `str.strip()` (no argument): drop whitespace from both ends. -/
def stripWs (l : List Char) : List Char :=
  ((l.dropWhile Char.isWhitespace).reverse.dropWhile Char.isWhitespace).reverse

/-- `s` starts with `pre`. -/
def listStartsWith (s pre : List Char) : Bool := s.take pre.length == pre

/-- Python `sub in s` for strings: `sub` occurs contiguously in `s`. -/
def isSubstring (sub : List Char) : List Char → Bool
  | [] => sub.isEmpty
  | c :: rest => listStartsWith (c :: rest) sub || isSubstring sub rest

/-- Index of the last `'.'` of a name, if any (CPython `str.rfind('.')`
restricted to a successful search). -/
def rfindDot : List Char → Option ℕ
  | [] => none
  | c :: cs =>
    match rfindDot cs with
    | some i => some (i + 1)
    | none => if c = '.' then some 0 else none

/-- `pathlib.PurePath.suffix` of a file name: `name[i:]` where
`i = name.rfind('.')`, provided `0 < i < len(name) - 1`, else `""`. -/
def pySuffix (name : List Char) : List Char :=
  match rfindDot name with
  | some i => if 0 < i ∧ i < name.length - 1 then name.drop i else []
  | none => []

/-- `pathlib.PurePath.stem`: the name without its `pySuffix`. -/
def pyStem (name : List Char) : List Char :=
  match rfindDot name with
  | some i => if 0 < i ∧ i < name.length - 1 then name.take i else name
  | none => name

/-- `pathlib.PurePath.with_suffix` for a non-empty new suffix: the stem of
the name with the new suffix appended (any existing suffix is replaced). -/
def pyWithSuffix (name suf : List Char) : List Char := pyStem name ++ suf

/-- The input extension as computed twice by the source
(`file.suffix.lower().lstrip(".")`). -/
def pyExt (name : List Char) : List Char := lstripChars ['.'] (lowerStr (pySuffix name))

/-- `max(1, min(10, q10))` from `quality_maps`. -/
def clampQ (q10 : ℤ) : ℤ := max 1 (min 10 q10)

/-- `quality_maps(fmt, q10)` of the source.  `jpg` branch:
`int(30 + (q10 - 1) * (65/9))`; on the clamped domain the double evaluation
equals the floor of the exact value, i.e. `30 + (q10-1)*65 fdiv 9`.
`png` branch: `9 - int(round((q10 - 1) * (9/9)))`; `9/9` is exactly `1.0`
and `round` of an integer-valued double is exact, so this is
`9 - (q10 - 1)`.  Unsupported formats yield `None`. -/
def quality_maps (fmt : String) (q10 : ℤ) : Option ℤ :=
  let q := clampQ q10
  if fmt = "jpg" then some (30 + ((q - 1) * 65).fdiv 9)
  else if fmt = "png" then some (9 - (q - 1))
  else none

/-- `should_skip(file, exclude_exts, exclude_substrings)` of the source:
skip when the extension is excluded or the lowercased file name contains a
non-empty excluded substring. -/
def should_skip (file_name : List Char)
    (exclude_exts exclude_substrings : List (List Char)) : Bool :=
  let name_lower := lowerStr file_name
  let ext := pyExt file_name
  if exclude_exts.contains ext then true
  else exclude_substrings.any fun sub => (sub != []) && isSubstring sub name_lower

/-- PIL color modes relevant to this program. -/
inductive Mode where
  | RGB | RGBA | LA | L | P | CMYK
  deriving DecidableEq, Fintype, Repr

/-- A PIL image at the granularity the claims are about: its size and mode. -/
structure PILImage where
  width : ℕ
  height : ℕ
  mode : Mode
  deriving DecidableEq, Repr

/-- Python `round` (round half to even) of the exact rational `num / den`,
`den > 0`, via floor division: Python `//` is `Int.fdiv` and `%` on a
positive modulus is `Int.fmod`. -/
def pyRoundRat (num den : ℤ) : ℤ :=
  if 2 * num.fmod den < den then num.fdiv den
  else if den < 2 * num.fmod den then num.fdiv den + 1
  else if num.fdiv den % 2 = 0 then num.fdiv den else num.fdiv den + 1

/-- The scale factor `target / float(max(w, h))` computed by
`pad_to_square`, as its exact rational value. -/
def scaleOf (w h target : ℕ) : ℚ := (target : ℚ) / (max w h : ℚ)

/-- The resized dimensions of `pad_to_square`:
`int(round(w * scale)), int(round(h * scale))` with
`scale = target / float(max(w, h))`, i.e. round-half-to-even of the exact
rationals `w*target / max w h` and `h*target / max w h`. -/
def newSize (w h target : ℕ) : ℤ × ℤ :=
  (pyRoundRat ((w : ℤ) * target) (max w h : ℕ),
   pyRoundRat ((h : ℤ) * target) (max w h : ℕ))

/-- The centering offsets `((target - new_w)//2, (target - new_h)//2)`
passed to `paste` (`//` is floor division). -/
def offsets (target : ℕ) (nw nh : ℤ) : ℤ × ℤ :=
  (((target : ℤ) - nw).fdiv 2, ((target : ℤ) - nh).fdiv 2)

/-- `pad_to_square(img, target, bg_rgb)` of the source: resize to `newSize`,
create an `"RGB"` canvas of size `(target, target)` filled with `bg_rgb`,
and paste the resized image at `offsets` — with the resized image as its own
alpha mask when its mode carries alpha (`RGBA`/`LA`), plainly otherwise.
`paste` leaves the canvas's size and mode unchanged in both branches. -/
def pad_to_square (img : PILImage) (target : ℕ) (bg_rgb : List ℕ) : PILImage :=
  let nsz := newSize img.width img.height target
  let img_resized : PILImage := ⟨nsz.1.toNat, nsz.2.toNat, img.mode⟩
  if img_resized.mode = Mode.RGBA ∨ img_resized.mode = Mode.LA then
    ⟨target, target, Mode.RGB⟩
  else
    ⟨target, target, Mode.RGB⟩

/-- The mode normalization of `convert_photo` ahead of `pad_to_square`:
for `jpg`, `RGBA`/`LA`/`P` sources become `RGBA` and every other mode
becomes `RGB`; for `png`, `P` becomes `RGBA` and other modes pass through. -/
def normalizeMode (out_fmt : String) (m : Mode) : Mode :=
  if out_fmt = "jpg" then
    if m = Mode.RGBA ∨ m = Mode.LA ∨ m = Mode.P then Mode.RGBA else Mode.RGB
  else
    if m = Mode.P then Mode.RGBA else m

/-- Is `c` one of `0-9a-f` (by code point)?  Together with the preceding
lowercasing this is Pillow's `#`-regex character class. -/
def isLowerHexDigit (c : Char) : Bool :=
  (48 ≤ c.toNat && c.toNat ≤ 57) || (97 ≤ c.toNat && c.toNat ≤ 102)

/-- Value of a hex digit (`'0'-'9'` ↦ 0–9, `'a'-'f'` ↦ 10–15). -/
def hexVal (c : Char) : ℕ := if c.toNat ≤ 57 then c.toNat - 48 else c.toNat - 87

/-- `PIL.ImageColor.getrgb("#" + digits)` after Pillow's lowercasing:
`#rgb` and `#rgba` expand each digit twice, `#rrggbb` and `#rrggbbaa` read
channel pairs; every other digit string raises, modeled as `none`. -/
def getrgbHex (digits : List Char) : Option (List ℕ) :=
  if digits.all isLowerHexDigit then
    match digits with
    | [r, g, b] => some [17 * hexVal r, 17 * hexVal g, 17 * hexVal b]
    | [r, g, b, a] =>
        some [17 * hexVal r, 17 * hexVal g, 17 * hexVal b, 17 * hexVal a]
    | [r1, r2, g1, g2, b1, b2] =>
        some [16 * hexVal r1 + hexVal r2, 16 * hexVal g1 + hexVal g2,
              16 * hexVal b1 + hexVal b2]
    | [r1, r2, g1, g2, b1, b2, a1, a2] =>
        some [16 * hexVal r1 + hexVal r2, 16 * hexVal g1 + hexVal g2,
              16 * hexVal b1 + hexVal b2, 16 * hexVal a1 + hexVal a2]
    | _ => none
  else none

/-- The background-color resolution of `convert_photo`:
`ImageColor.getrgb("#" + bg_hex.strip().lstrip("#"))`, substituting white
`(255, 255, 255)` when `getrgb` raises (the `except` branch, which also logs
a warning). -/
def resolveBg (bg_hex : String) : List ℕ :=
  let digits := lowerStr (lstripChars ['#'] (stripWs bg_hex.toList))
  match getrgbHex digits with
  | some v => v
  | none => [255, 255, 255]

/-- Python `args.output_quality or 10` of `main`'s call to `convert_photo`:
`0` is falsy, every other integer is truthy. -/
def effQuality (output_quality : ℤ) : ℤ :=
  if output_quality = 0 then 10 else output_quality

/-- One directory entry as seen by `main`'s loop.  `opens` models whether
`Image.open` succeeds on it, `saves` whether `canvas.save` succeeds;
`mode`, `width`, `height` describe the decoded image. -/
structure FileEntry where
  name : List Char
  is_file : Bool
  opens : Bool
  saves : Bool
  mode : Mode
  width : ℕ
  height : ℕ

/-- The configuration `main` distills from the CLI arguments. -/
structure Config where
  exclude_exts : List (List Char)
  exclude_substrings : List (List Char)
  out_fmt : String
  width : ℕ
  bg_hex : String
  q10 : ℤ

/-- `convert_photo(in_path, out_path, target_w, bg_hex, out_fmt, q10)`:
`none` models `return False` (open failure, or save failure after the
canvas was built); `some (img, param)` models a successful save of `img`
with encoder parameter `param` (`quality=` for JPEG, `compress_level=` for
PNG).  Color resolution cannot fail (`resolveBg` is total), mode
normalization and `pad_to_square` are pure; the `jpg` branch converts the
canvas to RGB (`canvas.convert("RGB")`) before saving. -/
def convert_photo (e : FileEntry) (target_w : ℕ) (bg_hex : String)
    (out_fmt : String) (q10 : ℤ) : Option (PILImage × Option ℤ) :=
  if e.opens then
    let bg_rgb := resolveBg bg_hex
    let img : PILImage := ⟨e.width, e.height, normalizeMode out_fmt e.mode⟩
    let canvas := pad_to_square img target_w bg_rgb
    if e.saves then
      if out_fmt = "jpg" then
        some (⟨canvas.width, canvas.height, Mode.RGB⟩, quality_maps "jpg" q10)
      else
        some (canvas, quality_maps "png" q10)
    else none
  else none

/-- The extensions `main` is willing to hand to Pillow. -/
def decodableExts : List (List Char) :=
  ["jpg".toList, "jpeg".toList, "png".toList, "tif".toList, "tiff".toList,
   "bmp".toList, "webp".toList, "heic".toList]

/-- One iteration of `main`'s loop on a directory entry: `none` when the
entry is skipped (`continue`) without counting, `some ok` when it is
attempted with outcome `ok`. -/
def processItem (cfg : Config) (e : FileEntry) : Option Bool :=
  if ¬ e.is_file then none
  else if should_skip e.name cfg.exclude_exts cfg.exclude_substrings then none
  else if ¬ decodableExts.contains (pyExt e.name) then none
  else some (convert_photo e cfg.width cfg.bg_hex cfg.out_fmt (effQuality cfg.q10)).isSome

/-- The counter update of `main`'s loop body: `total += 1` for every
attempted entry, `ok += 1` when `convert_photo` returned `True`.
The accumulator is `(ok, total)`. -/
def stepCount (cfg : Config) (acc : ℕ × ℕ) (e : FileEntry) : ℕ × ℕ :=
  match processItem cfg e with
  | none => acc
  | some true => (acc.1 + 1, acc.2 + 1)
  | some false => (acc.1, acc.2 + 1)

/-- `main` after argument parsing: `sys.exit(1)` when the source root does
not exist, modeled as `Except.error 1`; otherwise the loop runs over every
directory entry and the final `[DONE] ok/total` line is printed, modeled as
`Except.ok (ok, total)` (process exit code 0). -/
def runMain (srcExists : Bool) (files : List FileEntry) (cfg : Config) :
    Except ℕ (ℕ × ℕ) :=
  if ¬ srcExists then Except.error 1
  else Except.ok (files.foldl (stepCount cfg) (0, 0))

/-- The destination file name `main` + `convert_photo` produce for an input
file name: `out_base = out_dir / item.stem`, then
`out_base.with_suffix(".jpg")` (resp. `".png"`). -/
def outputName (in_name : List Char) (out_fmt : String) : List Char :=
  if out_fmt = "jpg" then pyWithSuffix (pyStem in_name) ".jpg".toList
  else pyWithSuffix (pyStem in_name) ".png".toList

/-- Modelled from the spec: the reference rounding §4.4 names for the
resized dimensions, "rounds half away from zero", applied to the exact
rational `num / den` (`den > 0`). -/
def specRoundHalfAway (num den : ℤ) : ℤ :=
  if num < 0 then -((2 * (-num) + den).fdiv (2 * den))
  else (2 * num + den).fdiv (2 * den)

/-! ### Helper lemmas -/

/-- Clamping to `[1, 10]` is idempotent. -/
theorem clampQ_idem (q : ℤ) : clampQ (clampQ q) = clampQ q := by
  unfold clampQ
  omega

/-- `quality_maps` only sees its quality argument through the clamp. -/
theorem quality_maps_clamp (fmt : String) (q : ℤ) :
    quality_maps fmt q = quality_maps fmt (clampQ q) := by
  unfold quality_maps
  rw [clampQ_idem]

/-- `isSubstring` decides occurrence as a contiguous substring. -/
theorem isSubstring_iff (sub s : List Char) :
    isSubstring sub s = true ↔ ∃ a b, a ++ sub ++ b = s := by
  induction s with
  | nil =>
    constructor
    · intro h
      simp only [isSubstring, List.isEmpty_iff] at h
      exact ⟨[], [], by simp [h]⟩
    · rintro ⟨a, b, h⟩
      rcases List.append_eq_nil.mp h with ⟨h1, h2⟩
      rcases List.append_eq_nil.mp h1 with ⟨-, h3⟩
      simp [isSubstring, h3]
  | cons c rest ih =>
    simp only [isSubstring, Bool.or_eq_true, ih]
    constructor
    · rintro (hpre | ⟨a, b, hab⟩)
      · refine ⟨[], (c :: rest).drop sub.length, ?_⟩
        simp only [listStartsWith, beq_iff_eq] at hpre
        simpa [hpre] using (c :: rest).take_append_drop sub.length
      · exact ⟨c :: a, b, by simp [hab]⟩
    · rintro ⟨a, b, hab⟩
      cases a with
      | nil =>
        left
        simp only [List.nil_append] at hab
        have ht : (c :: rest).take sub.length = sub := by
          rw [← hab, List.take_left]
        simp [listStartsWith, ht]
      | cons x a2 =>
        right
        simp only [List.cons_append] at hab
        exact ⟨a2, b, by injection hab⟩

/-- Characterization of `should_skip`: skip exactly on an excluded extension
or a non-empty excluded substring of the lowercased name. -/
theorem should_skip_iff (name : List Char) (exts subs : List (List Char)) :
    should_skip name exts subs = true ↔
      pyExt name ∈ exts ∨
        ∃ sub ∈ subs, sub ≠ [] ∧ ∃ a b, a ++ sub ++ b = lowerStr name := by
  have hss : should_skip name exts subs =
      (exts.contains (pyExt name) ||
        subs.any fun sub => (sub != []) && isSubstring sub (lowerStr name)) := by
    simp only [should_skip]
    split <;> simp_all
  rw [hss]
  have hc : (exts.contains (pyExt name) = true) ↔ pyExt name ∈ exts := List.elem_iff
  simp only [Bool.or_eq_true, List.any_eq_true, Bool.and_eq_true, bne_iff_ne,
    ne_eq, isSubstring_iff, hc]

/-- Hex digits are bounded by 15. -/
theorem hexVal_le (c : Char) (h : isLowerHexDigit c = true) : hexVal c ≤ 15 := by
  unfold isLowerHexDigit at h
  unfold hexVal
  simp only [Bool.or_eq_true, Bool.and_eq_true, decide_eq_true_eq] at h
  rcases h with ⟨h1, h2⟩ | ⟨h1, h2⟩ <;> split <;> omega

/-- Every successful `getrgbHex` result is an RGB triple or RGBA quadruple
of channels in `[0, 255]`. -/
theorem getrgbHex_shape (digits : List Char) (v : List ℕ)
    (h : getrgbHex digits = some v) :
    (v.length = 3 ∨ v.length = 4) ∧ ∀ x ∈ v, x ≤ 255 := by
  unfold getrgbHex at h
  split at h
  case isTrue hall =>
    have hmem : ∀ c ∈ digits, isLowerHexDigit c = true := by
      simpa [List.all_eq_true] using hall
    have hv : ∀ c ∈ digits, hexVal c ≤ 15 := fun c hc => hexVal_le c (hmem c hc)
    split at h
    case _ r g b =>
      rcases Option.some.inj h with rfl
      refine ⟨Or.inl rfl, ?_⟩
      intro x hx
      have hr := hv r (by simp)
      have hg := hv g (by simp)
      have hb := hv b (by simp)
      simp only [List.mem_cons, List.not_mem_nil, or_false] at hx
      rcases hx with rfl | rfl | rfl <;> omega
    case _ r g b a =>
      rcases Option.some.inj h with rfl
      refine ⟨Or.inr rfl, ?_⟩
      intro x hx
      have hr := hv r (by simp)
      have hg := hv g (by simp)
      have hb := hv b (by simp)
      have ha := hv a (by simp)
      simp only [List.mem_cons, List.not_mem_nil, or_false] at hx
      rcases hx with rfl | rfl | rfl | rfl <;> omega
    case _ r1 r2 g1 g2 b1 b2 =>
      rcases Option.some.inj h with rfl
      refine ⟨Or.inl rfl, ?_⟩
      intro x hx
      have h1 := hv r1 (by simp)
      have h2 := hv r2 (by simp)
      have h3 := hv g1 (by simp)
      have h4 := hv g2 (by simp)
      have h5 := hv b1 (by simp)
      have h6 := hv b2 (by simp)
      simp only [List.mem_cons, List.not_mem_nil, or_false] at hx
      rcases hx with rfl | rfl | rfl <;> omega
    case _ r1 r2 g1 g2 b1 b2 a1 a2 =>
      rcases Option.some.inj h with rfl
      refine ⟨Or.inr rfl, ?_⟩
      intro x hx
      have h1 := hv r1 (by simp)
      have h2 := hv r2 (by simp)
      have h3 := hv g1 (by simp)
      have h4 := hv g2 (by simp)
      have h5 := hv b1 (by simp)
      have h6 := hv b2 (by simp)
      have h7 := hv a1 (by simp)
      have h8 := hv a2 (by simp)
      simp only [List.mem_cons, List.not_mem_nil, or_false] at hx
      rcases hx with rfl | rfl | rfl | rfl <;> omega
    case _ => exact absurd h (by simp)
  case isFalse => exact absurd h (by simp)

/-- `pyRoundRat num den` is a round-to-nearest of the exact rational
`num / den`: it is within `1/2` of it, strictly within `1/2` away off the
exact halfway points, and at an exact halfway point it is the even
neighbor. -/
theorem pyRoundRat_dist (num den : ℤ) (hden : 0 < den) :
    |(pyRoundRat num den : ℚ) - num / den| ≤ 1 / 2 ∧
    (2 * num.fmod den ≠ den → |(pyRoundRat num den : ℚ) - num / den| < 1 / 2) ∧
    (2 * num.fmod den = den → pyRoundRat num den % 2 = 0) := by
  have hrel : den * (num.fdiv den) + num.fmod den = num := Int.fdiv_add_fmod num den
  have hr0 : 0 ≤ num.fmod den := by
    rw [Int.fmod_eq_emod num (by omega)]
    exact Int.emod_nonneg num (by omega)
  have hrlt : num.fmod den < den := by
    rw [Int.fmod_eq_emod num (by omega)]
    exact Int.emod_lt_of_pos num hden
  have hd : (0 : ℚ) < (den : ℚ) := by exact_mod_cast hden
  have hnum : (num : ℚ) = den * num.fdiv den + num.fmod den := by
    exact_mod_cast hrel.symm
  have hdiff : (num : ℚ) / den - num.fdiv den = num.fmod den / den := by
    rw [hnum]
    field_simp
  have habs1 : |(num.fdiv den : ℚ) - num / den| = num.fmod den / den := by
    rw [abs_sub_comm, hdiff, abs_of_nonneg (by positivity)]
  have habs2 : |((num.fdiv den : ℚ) + 1) - num / den| = ((den : ℚ) - num.fmod den) / den := by
    have he : ((num.fdiv den : ℚ) + 1) - num / den = ((den : ℚ) - num.fmod den) / den := by
      rw [hnum]
      field_simp
      ring
    rw [he, abs_of_nonneg]
    apply div_nonneg _ hd.le
    have : (num.fmod den : ℚ) ≤ den := by exact_mod_cast hrlt.le
    linarith
  unfold pyRoundRat
  split
  case isTrue h1 =>
    have h1Q : 2 * (num.fmod den : ℚ) < den := by exact_mod_cast h1
    have hlt : (num.fmod den : ℚ) / den < 1 / 2 := by
      rw [div_lt_div_iff₀ hd (by norm_num)]
      linarith
    rw [habs1]
    exact ⟨hlt.le, fun _ => hlt, fun hc => absurd hc (by omega)⟩
  case isFalse h1 =>
    split
    case isTrue h2 =>
      have h2Q : (den : ℚ) < 2 * num.fmod den := by exact_mod_cast h2
      have hlt : ((den : ℚ) - num.fmod den) / den < 1 / 2 := by
        rw [div_lt_div_iff₀ hd (by norm_num)]
        linarith
      push_cast
      rw [habs2]
      exact ⟨hlt.le, fun _ => hlt, fun hc => absurd hc (by omega)⟩
    case isFalse h2 =>
      have heq : 2 * num.fmod den = den := by omega
      have heqQ : 2 * (num.fmod den : ℚ) = den := by exact_mod_cast heq
      have hhalf : (num.fmod den : ℚ) / den = 1 / 2 := by
        rw [div_eq_div_iff hd.ne' (by norm_num)]
        linarith
      have hhalf2 : ((den : ℚ) - num.fmod den) / den = 1 / 2 := by
        rw [div_eq_div_iff hd.ne' (by norm_num)]
        linarith
      split
      case isTrue h3 =>
        rw [habs1, hhalf]
        exact ⟨le_refl _, fun hc => absurd heq hc, fun _ => h3⟩
      case isFalse h3 =>
        push_cast
        rw [habs2, hhalf2]
        exact ⟨le_refl _, fun hc => absurd heq hc, fun _ => by omega⟩

/-- On an exact multiple, `pyRoundRat` returns the exact quotient. -/
theorem pyRoundRat_mul_left (a b : ℤ) (ha : 0 < a) :
    pyRoundRat (a * b) a = b := by
  unfold pyRoundRat
  rw [Int.mul_fmod_right, Int.mul_fdiv_cancel_left b (by omega)]
  simp [ha]

/-! ### Claim theorems -/

/-- C1: evaluation of `quality_maps` at the spec's breakpoints.  The JPEG
breakpoints hold, but the PNG branch computes `9 - (q10 - 1)`: quality 1
yields compress level 9 and quality 10 yields compress level 0, the exact
inversion of the claimed `1 → 0`, `10 → 9`, and of the source's own comment
`q10=10 => comp=9 (máxima), q10=1 => comp=0`. -/
theorem C1_quality_maps_eval :
    quality_maps "jpg" 1 = some 30 ∧ quality_maps "jpg" 10 = some 95 ∧
    quality_maps "png" 1 = some 9 ∧ quality_maps "png" 10 = some 0 ∧
    quality_maps "png" 1 ≠ some 0 ∧ quality_maps "png" 10 ≠ some 9 := by
  decide

/-- C2: for every positive target side length and every input image,
`pad_to_square` returns an image of exactly `target × target` pixels in RGB
mode, whatever the input's size or color mode. -/
theorem C2_pad_to_square_square (img : PILImage) (target : ℕ)
    (bg_rgb : List ℕ) (htarget : 0 < target) :
    (pad_to_square img target bg_rgb).width = target ∧
    (pad_to_square img target bg_rgb).height = target ∧
    (pad_to_square img target bg_rgb).mode = Mode.RGB := by
  simp [pad_to_square, ite_self]

/-- Witness for C2 at a concrete 4000×3000 RGB input and target 6000. -/
theorem C2_witness :
    0 < 6000 ∧
    ((pad_to_square ⟨4000, 3000, Mode.RGB⟩ 6000 [255, 255, 255]).width = 6000 ∧
     (pad_to_square ⟨4000, 3000, Mode.RGB⟩ 6000 [255, 255, 255]).height = 6000 ∧
     (pad_to_square ⟨4000, 3000, Mode.RGB⟩ 6000 [255, 255, 255]).mode = Mode.RGB) :=
  ⟨by decide, C2_pad_to_square_square ⟨4000, 3000, Mode.RGB⟩ 6000 [255, 255, 255] (by decide)⟩

/-- C3: color-mode normalization follows the format-specific rule: for jpg,
`RGBA`/`LA`/`P` sources are promoted to `RGBA` before compositing and every
other mode is converted to `RGB`, and the final canvas saved by the jpg path
is `RGB`; for png, a mode-`P` source is promoted to `RGBA` and every other
mode passes through unchanged. -/
theorem C3_mode_normalization :
    (∀ m : Mode, (m = Mode.RGBA ∨ m = Mode.LA ∨ m = Mode.P) →
        normalizeMode "jpg" m = Mode.RGBA) ∧
    (∀ m : Mode, ¬(m = Mode.RGBA ∨ m = Mode.LA ∨ m = Mode.P) →
        normalizeMode "jpg" m = Mode.RGB) ∧
    normalizeMode "png" Mode.P = Mode.RGBA ∧
    (∀ m : Mode, m ≠ Mode.P → normalizeMode "png" m = m) ∧
    (∀ (e : FileEntry) (tw : ℕ) (bh : String) (q : ℤ) (c : PILImage)
        (p : Option ℤ), convert_photo e tw bh "jpg" q = some (c, p) →
        c.mode = Mode.RGB) := by
  refine ⟨by decide, by decide, by decide, by decide, ?_⟩
  intro e tw bh q c p h
  by_cases ho : e.opens = true
  · by_cases hs : e.saves = true
    · simp only [convert_photo, ho, hs, if_true, reduceIte] at h
      have h1 := congrArg Prod.fst (Option.some.inj h)
      simp only [] at h1
      rw [← h1]
    · simp [convert_photo, ho, hs] at h
  · simp [convert_photo, ho] at h

/-- Witness for C3 on a concrete RGBA source converted to jpg. -/
theorem C3_witness :
    convert_photo ⟨"a.png".toList, true, true, true, Mode.RGBA, 4, 2⟩ 8 "ffffff"
        "jpg" 10 = some (⟨8, 8, Mode.RGB⟩, some 95) ∧
    (⟨8, 8, Mode.RGB⟩ : PILImage).mode = Mode.RGB :=
  ⟨by decide,
   C3_mode_normalization.2.2.2.2 ⟨"a.png".toList, true, true, true, Mode.RGBA, 4, 2⟩
     8 "ffffff" 10 ⟨8, 8, Mode.RGB⟩ (some 95) (by decide)⟩

/-- C4 counterexample: for a 1×2 input and target 1 the exact scaled width
is `1 * (1/2) = 0.5`, an exact float; Python's `round` takes it to 0 (ties
to even) while the claimed reference rounding (half away from zero) gives
1, so the claim's rounding rule is not the one the code implements. -/
theorem C4_counterexample :
    (newSize 1 2 1).1 = 0 ∧
    specRoundHalfAway ((1 : ℤ) * 1) ((max 1 2 : ℕ) : ℤ) = 1 ∧
    (0 : ℤ) ≠ 1 := by
  decide

/-- C4 (amended): the scaled dimensions are
`round(w * scale), round(h * scale)` with `scale = target / max(w, h)`, but
the rounding is Python's round-half-to-even: within `1/2` of the exact
value, strictly so off halfway points, and the even neighbor at an exact
halfway point — not the spec's round-half-away-from-zero. -/
theorem C4_round_half_even (w h target : ℕ) (num den : ℤ) (hden : 0 < den) :
    (newSize w h target).1 = pyRoundRat ((w : ℤ) * target) ((max w h : ℕ) : ℤ) ∧
    (newSize w h target).2 = pyRoundRat ((h : ℤ) * target) ((max w h : ℕ) : ℤ) ∧
    (w : ℚ) * scaleOf w h target = ((w : ℤ) * target : ℤ) / ((max w h : ℕ) : ℚ) ∧
    |(pyRoundRat num den : ℚ) - num / den| ≤ 1 / 2 ∧
    (2 * num.fmod den ≠ den → |(pyRoundRat num den : ℚ) - num / den| < 1 / 2) ∧
    (2 * num.fmod den = den → pyRoundRat num den % 2 = 0) := by
  obtain ⟨hd1, hd2, hd3⟩ := pyRoundRat_dist num den hden
  refine ⟨rfl, rfl, ?_, hd1, hd2, hd3⟩
  unfold scaleOf
  push_cast
  rw [mul_div_assoc]

/-- Witness for C4 at the concrete halfway point `1/2` (input 1×2,
target 1). -/
theorem C4_witness :
    (0 : ℤ) < 2 ∧
    ((newSize 1 2 1).1 = pyRoundRat ((1 : ℤ) * 1) ((max 1 2 : ℕ) : ℤ) ∧
     (newSize 1 2 1).2 = pyRoundRat ((2 : ℤ) * 1) ((max 1 2 : ℕ) : ℤ) ∧
     (1 : ℚ) * scaleOf 1 2 1 = ((1 : ℤ) * 1 : ℤ) / ((max 1 2 : ℕ) : ℚ) ∧
     |(pyRoundRat 1 2 : ℚ) - 1 / 2| ≤ 1 / 2 ∧
     (2 * (1 : ℤ).fmod 2 ≠ 2 → |(pyRoundRat 1 2 : ℚ) - 1 / 2| < 1 / 2) ∧
     (2 * (1 : ℤ).fmod 2 = 2 → pyRoundRat 1 2 % 2 = 0)) :=
  ⟨by decide, C4_round_half_even 1 2 1 1 2 (by decide)⟩

/-- C5 counterexample: for a square 1×1 input and target 2 the scale
factor computed by `pad_to_square` is `2 / max(1,1) = 2`, not 1 as
claimed. -/
theorem C5_counterexample : scaleOf 1 1 2 = 2 ∧ (2 : ℚ) ≠ 1 := by
  constructor
  · unfold scaleOf
    norm_num
  · norm_num

/-- C5 (amended): for a square input both resized dimensions equal the
target and both centering offsets are 0; the scale factor equals
`target / side`, which is 1 exactly when the target equals the side. -/
theorem C5_square_input (w target : ℕ) (hw : 0 < w) (ht : 0 < target) :
    newSize w w target = ((target : ℤ), (target : ℤ)) ∧
    offsets target (target : ℤ) (target : ℤ) = (0, 0) ∧
    (scaleOf w w target = 1 ↔ target = w) := by
  have hmax : max w w = w := max_self w
  have hwZ : (0 : ℤ) < (w : ℤ) := by exact_mod_cast hw
  refine ⟨?_, ?_, ?_⟩
  · unfold newSize
    rw [hmax, pyRoundRat_mul_left _ _ hwZ]
  · unfold offsets
    rw [sub_self, Int.zero_fdiv]
  · unfold scaleOf
    rw [max_self, div_eq_one_iff_eq (by exact_mod_cast hw.ne')]
    exact Nat.cast_inj

/-- Witness for C5 on a 3×3 input at target 3 (scale exactly 1). -/
theorem C5_witness :
    0 < 3 ∧
    (newSize 3 3 3 = ((3 : ℤ), (3 : ℤ)) ∧
     offsets 3 (3 : ℤ) (3 : ℤ) = (0, 0) ∧
     (scaleOf 3 3 3 = 1 ↔ 3 = 3)) :=
  ⟨by decide, C5_square_input 3 3 (by decide) (by decide)⟩

/-- C6: a file named `photo_con_fondo.png` is skipped whenever `con_fondo`
is among the excluded substrings, whatever the excluded extensions are; in
general a file is skipped exactly when its extension (lowercased, dots
stripped) is excluded or its lowercased name contains a non-empty excluded
substring, unanchored. -/
theorem C6_should_skip_iff :
    (∀ exts subs : List (List Char), "con_fondo".toList ∈ subs →
        should_skip "photo_con_fondo.png".toList exts subs = true) ∧
    (∀ (name : List Char) (exts subs : List (List Char)),
        should_skip name exts subs = true ↔
          pyExt name ∈ exts ∨
            ∃ sub ∈ subs, sub ≠ [] ∧ ∃ a b, a ++ sub ++ b = lowerStr name) := by
  refine ⟨?_, should_skip_iff⟩
  intro exts subs hmem
  apply (should_skip_iff _ _ _).mpr
  exact Or.inr ⟨"con_fondo".toList, hmem, by decide,
    "photo_".toList, ".png".toList, by decide⟩

/-- Witness for C6: the concrete skip decision, with an excluded-extension
list that does not mention png. -/
theorem C6_witness :
    should_skip "photo_con_fondo.png".toList ["webp".toList]
      ["con_fondo".toList] = true :=
  C6_should_skip_iff.1 ["webp".toList] ["con_fondo".toList] (by decide)

/-- C7 counterexample: the four-digit hex string `ffff` has a wrong length
per the claim (neither 3 nor 6 digits), yet the resolution does not
substitute white: Pillow's `#rgba` form accepts it and the resolved
background is the RGBA quadruple `(255, 255, 255, 255)`, not an RGB
triple. -/
theorem C7_counterexample :
    resolveBg "ffff" = [255, 255, 255, 255] ∧
    resolveBg "ffff" ≠ [255, 255, 255] ∧
    (resolveBg "ffff").length ≠ 3 := by
  decide

/-- C7 (amended): resolution never raises: `ffffff` resolves to
`(255, 255, 255)`, inputs rejected by `getrgb` (such as `not-a-color`) fall
back to white, and the result is always an RGB triple or — for the 4- and
8-digit hex forms — an RGBA quadruple, every channel in `[0, 255]`. -/
theorem C7_color_resolution :
    resolveBg "ffffff" = [255, 255, 255] ∧
    resolveBg "not-a-color" = [255, 255, 255] ∧
    (∀ s : String, (resolveBg s).length = 3 ∨ (resolveBg s).length = 4) ∧
    (∀ s : String, ∀ x ∈ resolveBg s, x ≤ 255) := by
  refine ⟨by decide, by decide, ?_, ?_⟩
  · intro s
    simp only [resolveBg]
    split
    case _ v hv => exact (getrgbHex_shape _ v hv).1
    case _ => exact Or.inl rfl
  · intro s x hx
    simp only [resolveBg] at hx
    split at hx
    case _ v hv => exact (getrgbHex_shape _ v hv).2 x hx
    case _ =>
      simp only [List.mem_cons, List.not_mem_nil, or_false] at hx
      rcases hx with rfl | rfl | rfl <;> omega

/-- Witness for C7 at the six-digit gray `c8c8c8`, channel value 200. -/
theorem C7_witness : 200 ∈ resolveBg "c8c8c8" ∧ 200 ≤ 255 :=
  ⟨by decide, C7_color_resolution.2.2.2 "c8c8c8" 200 (by decide)⟩

/-- C9: the output path is the extension-less base (`item.stem`) with
`.with_suffix`, which replaces the text after the stem's last dot instead of
appending: `photo.v2.jpg` is written as `photo.jpg`, and the distinct inputs
`photo.v2.jpg` and `photo.v3.jpg` collide at the same destination name. -/
theorem C9_with_suffix_collision :
    outputName "photo.v2.jpg".toList "jpg" = "photo.jpg".toList ∧
    outputName "photo.v2.jpg".toList "jpg" ≠ "photo.v2.jpg".toList ∧
    outputName "photo.v3.jpg".toList "jpg" = outputName "photo.v2.jpg".toList "jpg" ∧
    "photo.v2.jpg".toList ≠ "photo.v3.jpg".toList := by
  decide

/-- C10: a CLI quality of 0 is falsy, so `args.output_quality or 10`
substitutes 10 and the encoder parameter equals the quality-10 value, not
the value of clamping 0 up to 1; every nonzero integer is passed through,
where `quality_maps`'s own clamp applies. -/
theorem C10_quality_zero_falsy :
    effQuality 0 = 10 ∧
    quality_maps "jpg" (effQuality 0) = quality_maps "jpg" 10 ∧
    quality_maps "png" (effQuality 0) = quality_maps "png" 10 ∧
    quality_maps "jpg" (effQuality 0) ≠ quality_maps "jpg" (clampQ 0) ∧
    quality_maps "png" (effQuality 0) ≠ quality_maps "png" (clampQ 0) ∧
    (∀ q : ℤ, q ≠ 0 → effQuality q = q) ∧
    (∀ (fmt : String) (q : ℤ), quality_maps fmt q = quality_maps fmt (clampQ q)) := by
  refine ⟨rfl, rfl, rfl, by decide, by decide, ?_, quality_maps_clamp⟩
  intro q hq
  simp [effQuality, hq]

/-- Witness for C10 at the nonzero quality 7. -/
theorem C10_witness : (7 : ℤ) ≠ 0 ∧ effQuality 7 = 7 :=
  ⟨by decide, C10_quality_zero_falsy.2.2.2.2.2.1 7 (by decide)⟩

/-- `main`'s loop is a running count: starting from `(a, b)` it adds the
number of successfully converted eligible entries to `a` and the number of
attempted (eligible) entries to `b`, never aborting early. -/
theorem foldl_stepCount (cfg : Config) (files : List FileEntry) (a b : ℕ) :
    files.foldl (stepCount cfg) (a, b) =
      (a + files.countP (fun e => (processItem cfg e).getD false),
       b + files.countP (fun e => (processItem cfg e).isSome)) := by
  induction files generalizing a b with
  | nil => simp
  | cons e rest ih =>
    rw [List.foldl_cons, List.countP_cons, List.countP_cons]
    rcases hpe : processItem cfg e with _ | bv
    · have hstep : stepCount cfg (a, b) e = (a, b) := by simp [stepCount, hpe]
      rw [hstep, ih]
      simp [hpe]
    · cases bv
      · have hstep : stepCount cfg (a, b) e = (a, b + 1) := by simp [stepCount, hpe]
        rw [hstep, ih]
        simp [hpe, Prod.ext_iff]
        omega
      · have hstep : stepCount cfg (a, b) e = (a + 1, b + 1) := by simp [stepCount, hpe]
        rw [hstep, ih]
        simp [hpe, Prod.ext_iff]
        omega

/-- C8: `main` exits non-zero exactly when the source root does not exist;
otherwise the traversal runs to completion over every directory entry —
decode (`Image.open`) or encode (`save`) failures only make `convert_photo`
return `False` — and the run ends with the `succeeded/attempted` summary
and a zero exit. -/
theorem C8_main_exit (srcExists : Bool) (files : List FileEntry) (cfg : Config) :
    (srcExists = false → runMain srcExists files cfg = Except.error 1) ∧
    (srcExists = true → runMain srcExists files cfg =
       Except.ok (files.countP (fun e => (processItem cfg e).getD false),
                  files.countP (fun e => (processItem cfg e).isSome))) ∧
    (∀ e : FileEntry,
       (convert_photo e cfg.width cfg.bg_hex cfg.out_fmt (effQuality cfg.q10)).isSome
         = (e.opens && e.saves)) := by
  refine ⟨?_, ?_, ?_⟩
  · intro h
    subst h
    rfl
  · intro h
    subst h
    show Except.ok (files.foldl (stepCount cfg) (0, 0)) = _
    rw [foldl_stepCount]
    simp
  · intro e
    cases ho : e.opens <;> cases hs : e.saves <;>
      by_cases hf : cfg.out_fmt = "jpg" <;> simp [convert_photo, ho, hs, hf]

/-- Witness for C8: a one-entry directory whose file fails to decode is
still fully traversed and summarized as `0/1`; a missing source exits with
code 1. -/
theorem C8_witness :
    runMain false [⟨"a.jpg".toList, true, false, true, Mode.RGB, 3, 5⟩]
        ⟨[], [], "jpg", 4, "ffffff", 10⟩ = Except.error 1 ∧
    runMain true [⟨"a.jpg".toList, true, false, true, Mode.RGB, 3, 5⟩]
        ⟨[], [], "jpg", 4, "ffffff", 10⟩ =
      Except.ok
        ([⟨"a.jpg".toList, true, false, true, Mode.RGB, 3, 5⟩].countP
          (fun e => (processItem ⟨[], [], "jpg", 4, "ffffff", 10⟩ e).getD false),
         [⟨"a.jpg".toList, true, false, true, Mode.RGB, 3, 5⟩].countP
          (fun e => (processItem ⟨[], [], "jpg", 4, "ffffff", 10⟩ e).isSome)) :=
  ⟨(C8_main_exit false [⟨"a.jpg".toList, true, false, true, Mode.RGB, 3, 5⟩]
      ⟨[], [], "jpg", 4, "ffffff", 10⟩).1 rfl,
   (C8_main_exit true [⟨"a.jpg".toList, true, false, true, Mode.RGB, 3, 5⟩]
      ⟨[], [], "jpg", 4, "ffffff", 10⟩).2.1 rfl⟩

end ConvertPhoto
